import Mathlib

/-
Verification model of the UFDUR pivot-cache extraction pipeline.

Shallow embedding of the two core source files:
  scripts/extract_ufdur.py      (cache reader, record decoder, role detector,
                                 schema normalizer, extraction orchestrator)
  scripts/combine_quarters.py   (period merger and per-quarter summary)

Conventions of the embedding:
  - Excel floating point values are modelled as rationals.
  - A pandas DataFrame is modelled as a column-name list paired with
    row-major cell data; pandas label based column selection keeps every
    column whose label matches, in order, exactly as pandas does when a
    label occurs more than once.
  - Raised Python exceptions are modelled as the error side of Except;
    the orchestrator absorbs them with Except.toOption, mirroring its
    try/except blocks.
  - The zip archive is modelled by two maps from a cache number to the
    parsed XML payload of the corresponding definition entry and records
    entry; a missing entry is modelled as none.
-/

namespace Ufdur

/-- A literal cell value: string, float, boolean, or null/NaN. -/
inductive Cell where
  | null : Cell
  | str (s : String) : Cell
  | num (q : ℚ) : Cell
  | boolC (b : Bool) : Cell
deriving DecidableEq, Repr

/-- One child element of a sharedItems element in a pivot cache definition,
identified by its XML tag.  The v attribute of an s or unknown tag may be
absent, which Python reads as None.  The payload of an n tag is the float
value the source obtains with float(...). -/
inductive DefItem where
  | sTag (v : Option String) : DefItem
  | nTag (v : ℚ) : DefItem
  | mTag : DefItem
  | bTag (v : String) : DefItem
  | otherTag (v : Option String) : DefItem
deriving DecidableEq, Repr

/-- One child element of a record element in pivotCacheRecords.  An x tag
carries the dictionary index the source obtains with int(...), a Python
signed integer. -/
inductive RecItem where
  | xTag (v : Int) : RecItem
  | nTag (v : ℚ) : RecItem
  | sTag (v : Option String) : RecItem
  | mTag : RecItem
  | otherTag (v : Option String) : RecItem
deriving DecidableEq, Repr

/-- A cacheField element: its name attribute and, when present, its
sharedItems children. -/
structure CacheField where
  name : String
  shared : Option (List DefItem)
deriving DecidableEq, Repr

/-- The parsed pivotCacheDefinition: the list of cacheField elements. -/
abbrev CacheDef : Type := List CacheField

/-- The container file: for each cache number, the parsed definition entry
and the parsed records entry, or none when the archive has no such entry. -/
structure Workbook where
  defs : Nat → Option CacheDef
  recs : Nat → Option (List (List RecItem))

/-- Python errors the extraction can raise: the first three from
extract_pivot_cache, the last from pd.concat when the frames' column
labels differ and cannot be aligned. -/
inductive PyErr where
  | fileNotFound : PyErr
  | keyError : PyErr
  | indexError : PyErr
  | invalidIndexError : PyErr
deriving DecidableEq, Repr

/-- get_cache_fields: returns the field names of a cache definition, or
None when the definition entry is absent from the archive
(extract_ufdur.py lines 17-27). -/
def get_cache_fields (wb : Workbook) (cache_num : Nat) : Option (List String) :=
  (wb.defs cache_num).map (fun d => d.map CacheField.name)

/-- The truthiness test `cache_fields and 'ClaimState' in cache_fields`
from detect_cache_types. -/
def fieldsHaveClaimState : Option (List String) → Bool
  | some fs => fs.contains "ClaimState"
  | none => false

/-- detect_cache_types (extract_ufdur.py lines 30-44): the returned pair is
(main cache number, outliers cache number); the Bool records whether the
roles were confirmed from the ClaimState field (true) or the fallback
warning branch was taken (false). -/
def detect_cache_types (wb : Workbook) : (Nat × Nat) × Bool :=
  if fieldsHaveClaimState (get_cache_fields wb 1) then ((1, 2), true)
  else if fieldsHaveClaimState (get_cache_fields wb 2) then ((2, 1), true)
  else ((1, 2), false)

/-- Decoding of one sharedItems child per the tag-to-type mapping of
extract_pivot_cache (lines 70-81). -/
def decodeDefItem : DefItem → Cell
  | .sTag (some t) => .str t
  | .sTag none => .null
  | .nTag q => .num q
  | .mTag => .null
  | .bTag v => .boolC (v == "1")
  | .otherTag (some t) => .str t
  | .otherTag none => .null

/-- Python list indexing values[idx] for a signed index: nonnegative
indices address from the front, negative indices address from the back,
and an index below -len raises IndexError. -/
def pyGet (values : List Cell) (idx : Int) : Except PyErr Cell :=
  if 0 ≤ idx then
    if h : idx.toNat < values.length then .ok (values.get ⟨idx.toNat, h⟩)
    else .error .indexError
  else
    let j : Int := (values.length : Int) + idx
    if h2 : 0 ≤ j ∧ j.toNat < values.length then .ok (values.get ⟨j.toNat, h2.2⟩)
    else .error .indexError

/-- Resolution of an x tag (lines 94-99): when the field has a shared item
list and `idx < len(shared_items[field_idx])` holds for the Python signed
comparison, the value is looked up by Python indexing; otherwise None is
appended. -/
def resolveX (shared : Option (List Cell)) (idx : Int) : Except PyErr Cell :=
  match shared with
  | some values =>
      if idx < (values.length : Int) then pyGet values idx
      else .ok .null
  | none => .ok .null

/-- Decoding of one record child (lines 91-107). -/
def decodeRecItem (shared : Nat → Option (List Cell)) (fieldIdx : Nat) :
    RecItem → Except PyErr Cell
  | .xTag v => resolveX (shared fieldIdx) v
  | .nTag q => .ok (.num q)
  | .sTag (some t) => .ok (.str t)
  | .sTag none => .ok .null
  | .mTag => .ok .null
  | .otherTag (some t) => .ok (.str t)
  | .otherTag none => .ok .null

/-- The per-record loop of extract_pivot_cache: field_idx starts at 0 and
increases by one per child element. -/
def decodeRecordAux (shared : Nat → Option (List Cell)) :
    Nat → List RecItem → Except PyErr (List Cell)
  | _, [] => .ok []
  | i, it :: rest => do
      let c ← decodeRecItem shared i it
      let cs ← decodeRecordAux shared (i + 1) rest
      .ok (c :: cs)

/-- Decoding of one record element. -/
def decodeRecord (shared : Nat → Option (List Cell)) (rec : List RecItem) :
    Except PyErr (List Cell) :=
  decodeRecordAux shared 0 rec

/-- A pandas DataFrame: column labels plus row-major data. -/
structure Df where
  cols : List String
  rows : List (List Cell)
deriving DecidableEq, Repr

/-- The shared_items dictionary of extract_pivot_cache: field index to
decoded shared item list, defined exactly for the fields that have a
sharedItems element. -/
def sharedOf (d : CacheDef) : Nat → Option (List Cell) :=
  fun i => ((d.get? i).bind CacheField.shared).map (List.map decodeDefItem)

/-- extract_pivot_cache (extract_ufdur.py lines 47-114).  A missing
definition entry raises FileNotFoundError (line 57); a missing records
entry raises KeyError from z.read (line 84); an IndexError from record
decoding aborts the whole call. -/
def extract_pivot_cache (wb : Workbook) (cache_num : Nat) : Except PyErr Df :=
  match wb.defs cache_num with
  | none => .error .fileNotFound
  | some d =>
      match wb.recs cache_num with
      | none => .error .keyError
      | some recs =>
          match recs.mapM (decodeRecord (sharedOf d)) with
          | .error e => .error e
          | .ok rows => .ok ⟨d.map CacheField.name, rows⟩

/-- The rename table of standardize_columns (lines 119-124), applied to a
single column label by df.rename. -/
def renameCol (c : String) : String :=
  if c = "TotalOrphanQTY" then "TotalQty"
  else if c = "TotalOrphanDS" then "TotalDS"
  else if c = "TotalOrphanRxCnt" then "TotalRxCnt"
  else if c = "TotalOrphanThirtyDayEquiv" then "ThirtyDayEquiv"
  else c

/-- df.rename(columns=rename_map): relabels columns, leaving the data in
place; duplicate resulting labels are kept, as pandas does. -/
def Df.rename (df : Df) : Df :=
  ⟨df.cols.map renameCol, df.rows⟩

/-- The membership test `c in df.columns`. -/
def Df.hasCol (df : Df) (c : String) : Bool :=
  decide (c ∈ df.cols)

/-- Scalar column assignment df[c] = v: when the label exists every
position carrying it is overwritten in every row; otherwise a new column
holding the scalar is appended on the right, as pandas does. -/
def Df.setCol (df : Df) (c : String) (v : Cell) : Df :=
  if c ∈ df.cols then
    ⟨df.cols, df.rows.map (fun r => (df.cols.zip r).map (fun p => if p.1 = c then v else p.2))⟩
  else
    ⟨df.cols ++ [c], df.rows.map (fun r => r ++ [v])⟩

/-- The positions of a label in a column list, counted from base. -/
def colIdxsAux (nm : String) : List String → Nat → List Nat
  | [], _ => []
  | c :: cs, i =>
      if c = nm then i :: colIdxsAux nm cs (i + 1) else colIdxsAux nm cs (i + 1)

/-- All positions of a column label in the frame, in order. -/
def Df.colIdxs (df : Df) (nm : String) : List Nat :=
  colIdxsAux nm df.cols 0

/-- Label based column selection df[names]: for each requested label every
matching column is kept, in frame order, exactly as pandas does when a
label occurs more than once. -/
def Df.select (df : Df) (names : List String) : Df :=
  ⟨names.flatMap (fun nm => (df.colIdxs nm).map (fun _ => nm)),
   df.rows.map (fun r => names.flatMap (fun nm => (df.colIdxs nm).map (fun i => r.getD i Cell.null)))⟩

/-- Reindexing one row onto a new label list: a label present in the old
frame takes the value of its first matching column, an absent label takes
NaN. -/
def reindexRow (cols : List String) (r : List Cell) (newCols : List String) : List Cell :=
  newCols.map (fun c =>
    match colIdxsAux c cols 0 with
    | [] => Cell.null
    | i :: _ => r.getD i Cell.null)

/-- pd.concat([a, b], ignore_index=True) (line 196).  When the two frames
carry identical column label lists (duplicates included) no alignment
happens and the rows of b follow the rows of a.  When the labels differ,
pandas reindexes both frames onto the union of the columns: this raises
InvalidIndexError if either frame carries duplicate labels, and otherwise
keeps the first frame's labels followed by the second frame's new labels,
back-filling NaN. -/
def pdConcat (a b : Df) : Except PyErr Df :=
  if a.cols = b.cols then .ok ⟨a.cols, a.rows ++ b.rows⟩
  else if a.cols.Nodup ∧ b.cols.Nodup then
    let newCols := a.cols ++ b.cols.filter (fun c => decide (c ∉ a.cols))
    .ok ⟨newCols,
      a.rows.map (fun r => reindexRow a.cols r newCols) ++
        b.rows.map (fun r => reindexRow b.cols r newCols)⟩
  else .error .invalidIndexError

/-- The idiom `if c not in df.columns: df[c] = v`. -/
def addIfMissing (df : Df) (c : String) (v : Cell) : Df :=
  if df.hasCol c then df else df.setCol c v

/-- standardize_columns (extract_ufdur.py lines 117-134).  The is_outliers
parameter is accepted and ignored, as in the source. -/
def standardize_columns (df : Df) (_is_outliers : Bool) : Df :=
  let d := df.rename
  let d := addIfMissing d "ClaimState" (.str "AGGREGATED")
  let d := addIfMissing d "MTF" (.str "")
  let d := addIfMissing d "MTFbranchofservice" (.str "")
  d

/-- The canonical column list of extract_ufdur (lines 179-181). -/
def all_columns : List String :=
  ["Qtr", "ClaimState", "DOD_UF_CLASS", "DSF", "ProductName",
   "SpecialtyDrugFlag", "point_of_service", "MTF", "MTFbranchofservice",
   "TotalQty", "TotalDS", "TotalRxCnt", "ThirtyDayEquiv", "Source"]

/-- The back-fill loop of extract_ufdur (lines 184-186 resp. 190-192):
every canonical column absent from the frame is appended holding the
empty string. -/
def backfill (df : Df) : Df :=
  all_columns.foldl (fun d c => addIfMissing d c (.str "")) df

/-- The per-cache path of extract_ufdur for one successfully extracted
frame: standardize_columns, the Source tag assignment (line 161 resp.
171), the canonical back-fill loop, and the projection df[all_columns]
(line 187 resp. 193). -/
def sidePipeline (df : Df) (is_outliers : Bool) (tag : String) : Df :=
  (backfill ((standardize_columns df is_outliers).setCol "Source" (.str tag))).select all_columns

/-- extract_ufdur (extract_ufdur.py lines 137-202), with printing and the
CSV write dropped.  Each per-cache extraction is wrapped in try/except,
modelled by Except.toOption.  The combined frame is produced only when
both sides succeeded (line 195); the pd.concat of line 196 sits outside
any try block, so when it cannot align the two frames the raise
propagates out of the function, modelled as the error side of the
result.  When at least one side failed the function returns None. -/
def extract_ufdur (wb : Workbook) : Except PyErr (Option Df) :=
  let det := detect_cache_types wb
  let dfm := (extract_pivot_cache wb det.1.1).toOption.map (fun d => sidePipeline d false "MAIN")
  let dfo := (extract_pivot_cache wb det.1.2).toOption.map (fun d => sidePipeline d true "OUTLIERS")
  match dfm, dfo with
  | some a, some b =>
      match pdConcat a b with
      | .error e => .error e
      | .ok t => .ok (some t)
  | _, _ => .ok none

/-- Whether the character list starts with the pattern. -/
def leadMatch : List Char → List Char → Bool
  | _, [] => true
  | [], _ :: _ => false
  | a :: as, b :: bs => a == b && leadMatch as bs

/-- Whether the character list has the pattern as a contiguous part. -/
def subMatch : List Char → List Char → Bool
  | [], pat => pat.isEmpty
  | a :: t, pat => leadMatch (a :: t) pat || subMatch t pat

/-- The Python substring test `pat in s`. -/
def strHasSub (s pat : String) : Bool :=
  subMatch s.data pat.data

/-- Whether the string ends with the suffix; glob("*_combined.csv")
matches exactly the names ending with "_combined.csv". -/
def strEndsW (s suf : String) : Bool :=
  leadMatch s.data.reverse suf.data.reverse

/-- One row of a period CSV restricted to the three canonical columns the
merger reads: Qtr, ProductName and ThirtyDayEquiv.  A CSV field that
pandas reads as missing is the null cell. -/
structure MRow where
  qtr : Cell
  productName : Cell
  thirtyDayEquiv : Cell
deriving DecidableEq, Repr

/-- The data directory: file names paired with the row content pandas
would read from each file. -/
abbrev Dir : Type := List (String × List MRow)

/-- The discovery step of combine_quarters (lines 28-31): the names
matching glob("*_combined.csv") with the names containing "Master"
excluded. -/
def isPeriodFile (nm : String) : Bool :=
  strEndsW nm "_combined.csv" && !(strHasSub nm "Master")

/-- The discovered period file names, in directory enumeration order. -/
def discoverNames (fs : Dir) : List String :=
  (fs.map Prod.fst).filter isPeriodFile

/-- pd.read_csv on one discovered file, by name. -/
def readRows (fs : Dir) (nm : String) : List MRow :=
  (List.lookup nm fs).getD []

/-- sorted(combined_files) (lines 38 and 44): lexical order on names. -/
def sortedNames (fs : Dir) : List String :=
  (discoverNames fs).insertionSort (· ≤ ·)

/-- The read-and-concatenate loop (lines 43-52): the discovered files are
read in sorted name order and their rows concatenated. -/
def mergedRows (fs : Dir) : List MRow :=
  (sortedNames fs).flatMap (readRows fs)

/-- Writing a file: an existing name is overwritten in place, a new name
is appended. -/
def writeFile (fs : Dir) (nm : String) (content : List MRow) : Dir :=
  if nm ∈ fs.map Prod.fst then
    fs.map (fun p => if p.1 = nm then (nm, content) else p)
  else
    fs ++ [(nm, content)]

/-- The numeric value of one decimal digit. -/
def digitVal (c : Char) : Option Nat :=
  if c.isDigit then some (c.toNat - 48) else none

/-- The value of a nonempty digit string. -/
def digitsVal (cs : List Char) : Option Nat :=
  if cs.isEmpty then none
  else cs.foldl (fun acc c => acc.bind (fun n => (digitVal c).map (fun d => n * 10 + d))) (some 0)

/-- Parse of an unsigned decimal literal, with an optional fractional
part; anything else is not numeric.  This covers the plain decimal forms
the data carries; any string outside this shape coerces to NaN. -/
def parseUnsigned (cs : List Char) : Option ℚ :=
  let sp := cs.span (fun c => c != '.')
  match sp.2 with
  | [] => (digitsVal sp.1).map (fun n => (n : ℚ))
  | _ :: frac =>
      if frac.contains '.' then none
      else if sp.1.isEmpty && frac.isEmpty then none
      else
        match (if sp.1.isEmpty then some 0 else digitsVal sp.1),
              (if frac.isEmpty then some 0 else digitsVal frac) with
        | some ip, some fp => some ((ip : ℚ) + (fp : ℚ) / ((10 : ℚ) ^ frac.length))
        | _, _ => none

/-- Parse of a signed decimal literal. -/
def parseNumQ (s : String) : Option ℚ :=
  match s.data with
  | '-' :: rest => (parseUnsigned rest).map (fun q => -q)
  | '+' :: rest => parseUnsigned rest
  | cs => parseUnsigned cs

/-- pd.to_numeric(value, errors=coerce) on one cell: numbers pass
through, numeric strings parse, booleans map to 0 and 1, and anything
else becomes NaN. -/
def coerceNum : Cell → Option ℚ
  | .num q => some q
  | .str s => parseNumQ s
  | .boolC b => some (if b then 1 else 0)
  | .null => none

/-- The column mutation of line 72: the ThirtyDayEquiv cell of every row
is replaced by its coercion, NaN when it is not numeric. -/
def coerceCell (c : Cell) : Cell :=
  match coerceNum c with
  | some q => .num q
  | none => .null

/-- master_df after line 72: ThirtyDayEquiv coerced, other columns kept. -/
def coercedMaster (rows : List MRow) : List MRow :=
  rows.map (fun r => { r with thirtyDayEquiv := coerceCell r.thirtyDayEquiv })

/-- combine_quarters (combine_quarters.py lines 13-83): when no period
file is discovered the function prints an error and returns None without
touching the directory (lines 33-35); otherwise the merged rows are
written verbatim to the output file (line 59), the ThirtyDayEquiv column
of master_df is then coerced in place (line 72), and the coerced frame is
returned (line 83).  The result is the returned value paired with the
directory after the call. -/
def combine_quarters (fs : Dir) (output_file : String) : Option (List MRow) × Dir :=
  if (discoverNames fs).isEmpty then (none, fs)
  else
    let m := mergedRows fs
    (some (coercedMaster m), writeFile fs output_file m)

/-- The rows of one groupby group. -/
def groupRows (rows : List MRow) (q : Cell) : List MRow :=
  rows.filter (fun r => r.qtr == q)

/-- The ThirtyDayEquiv aggregate of lines 73-75: the sum over the group
of the coerced column, with NaN skipped. -/
def summarySum (rows : List MRow) (q : Cell) : ℚ :=
  ((groupRows (coercedMaster rows) q).map
    (fun r => match r.thirtyDayEquiv with | .num x => x | _ => 0)).sum

/-- The Records aggregate of lines 73-76: the pandas count of the
ProductName column over the group, which counts the non null entries. -/
def summaryCount (rows : List MRow) (q : Cell) : Nat :=
  ((groupRows (coercedMaster rows) q).filter (fun r => r.productName != Cell.null)).length

/-! ### Concrete inputs used by witnesses and counterexamples -/

/-- A main cache definition: ClaimState with a two entry dictionary,
ProductName and TotalQty inline. -/
def mainDef : CacheDef :=
  [⟨"ClaimState", some [.sTag (some "AL"), .sTag (some "AR")]⟩,
   ⟨"ProductName", none⟩, ⟨"TotalQty", none⟩]

/-- One record for mainDef: dictionary index 0, an inline string, an
inline number. -/
def mainRecs : List (List RecItem) := [[.xTag 0, .sTag (some "DrugX"), .nTag 42]]

/-- An outliers cache definition with the legacy quantity name. -/
def outlierDef : CacheDef := [⟨"TotalOrphanQTY", none⟩, ⟨"ProductName", none⟩]

/-- One record for outlierDef. -/
def outlierRecs : List (List RecItem) := [[.nTag 7, .sTag (some "DrugY")]]

/-- A container holding both caches. -/
def wbFull : Workbook :=
  ⟨fun n => if n = 1 then some mainDef else if n = 2 then some outlierDef else none,
   fun n => if n = 1 then some mainRecs else if n = 2 then some outlierRecs else none⟩

/-- A container holding only cache 1. -/
def wbMainOnly : Workbook :=
  ⟨fun n => if n = 1 then some mainDef else none,
   fun n => if n = 1 then some mainRecs else none⟩

/-- A container whose cache 1 has a definition entry but no records
entry. -/
def wbDefNoRecs : Workbook :=
  ⟨fun n => if n = 1 then some mainDef else none, fun _ => none⟩

/-- A container with no pivot cache entries at all. -/
def wbEmpty : Workbook := ⟨fun _ => none, fun _ => none⟩

/-- A container whose cache 1 carries both the legacy orphan quantity
column and its canonical replacement. -/
def wbDupCols : Workbook :=
  ⟨fun n => if n = 1 then some ([⟨"TotalOrphanQTY", none⟩, ⟨"TotalQty", none⟩] : CacheDef)
            else if n = 2 then some outlierDef else none,
   fun n => if n = 1 then some [[RecItem.nTag 1, RecItem.nTag 2]]
            else if n = 2 then some outlierRecs else none⟩

/-- A container where both cache definitions contain ClaimState. -/
def wbBothClaim : Workbook :=
  ⟨fun n => if n = 1 then some mainDef else if n = 2 then some mainDef else none,
   fun _ => none⟩

/-- The extracted main frame of wbFull. -/
def dfMainFull : Df :=
  ⟨["ClaimState", "ProductName", "TotalQty"], [[.str "AL", .str "DrugX", .num 42]]⟩

/-- The extracted outliers frame of wbFull. -/
def dfOutFull : Df :=
  ⟨["TotalOrphanQTY", "ProductName"], [[.num 7, .str "DrugY"]]⟩

/-- Whether an x tag index falls outside the positional range of the
dictionary of its field (also true when the field has no dictionary). -/
def dictOutOfRange : Option (List Cell) → Int → Bool
  | none, _ => true
  | some vs, idx => decide (idx < 0) || decide ((vs.length : Int) ≤ idx)

/-! ### C7: zero period files -/

/-- C7: whenever the merger discovers zero period files it returns None
and the directory is left untouched — no output file is produced and no
pre-existing master file is overwritten. -/
theorem combine_no_input (fs : Dir) (outName : String)
    (h : discoverNames fs = []) :
    combine_quarters fs outName = (none, fs) := by
  simp [combine_quarters, h]

/-- C7 witness: a directory holding only a previous master file. -/
theorem combine_no_input_witness :
    combine_quarters [("UFDUR_Master.csv", [⟨Cell.str "q", Cell.null, Cell.num 3⟩])]
        "UFDUR_Master.csv" =
      (none, [("UFDUR_Master.csv", [⟨Cell.str "q", Cell.null, Cell.num 3⟩])]) :=
  combine_no_input _ _ (by decide)

/-! ### C5: dictionary index resolution -/

/-- C5 counterexample: the Python index -1 is outside the positional
range of a one entry dictionary, yet resolution returns the last entry
rather than null, because the source only guards idx < len. -/
theorem resolveX_negative_index :
    dictOutOfRange (some [Cell.str "A"]) (-1) = true ∧
    resolveX (some [Cell.str "A"]) (-1) = .ok (Cell.str "A") ∧
    Cell.str "A" ≠ Cell.null := by
  refine ⟨by decide, rfl, by decide⟩

/-- C5 as amended: for every nonnegative dictionary index, resolution
never raises, returns null whenever the index is out of range of the
dictionary or the field has no dictionary, and otherwise resolves
positionally; and a record whose x tags all carry nonnegative indices
decodes without failing. -/
theorem resolveX_nonneg_safe :
    (∀ sh idx, 0 ≤ idx →
      (resolveX sh idx).isOk = true ∧
      (dictOutOfRange sh idx = true → resolveX sh idx = .ok Cell.null) ∧
      (∀ vs, sh = some vs → idx < (vs.length : Int) →
          resolveX sh idx = .ok (vs.getD idx.toNat Cell.null))) ∧
    (∀ sh rec, (∀ v, RecItem.xTag v ∈ rec → 0 ≤ v) →
      (decodeRecord sh rec).isOk = true) := by
  have key : ∀ sh idx, 0 ≤ idx →
      (resolveX sh idx).isOk = true ∧
      (dictOutOfRange sh idx = true → resolveX sh idx = .ok Cell.null) ∧
      (∀ vs, sh = some vs → idx < (vs.length : Int) →
          resolveX sh idx = .ok (vs.getD idx.toNat Cell.null)) := by
    intro sh idx hpos
    match sh with
    | none => exact ⟨rfl, fun _ => rfl, fun vs hvs => by cases hvs⟩
    | some vs =>
        by_cases hlt : idx < (vs.length : Int)
        · have hn : idx.toNat < vs.length := by omega
          have hres : resolveX (some vs) idx = .ok (vs.get ⟨idx.toNat, hn⟩) := by
            simp only [resolveX, if_pos hlt, pyGet, if_pos hpos, dif_pos hn]
          refine ⟨by rw [hres]; rfl, ?_, ?_⟩
          · intro hoor
            exfalso
            simp only [dictOutOfRange, Bool.or_eq_true, decide_eq_true_eq] at hoor
            omega
          · intro vs2 hvs2 _
            cases hvs2
            rw [hres, List.getD_eq_getElem vs Cell.null hn]
            rfl
        · have hres : resolveX (some vs) idx = .ok Cell.null := by
            simp only [resolveX, if_neg hlt]
          exact ⟨by rw [hres]; rfl, fun _ => hres, fun vs2 hvs2 h2 => by cases hvs2; omega⟩
  refine ⟨key, ?_⟩
  intro sh rec hrec
  suffices haux : ∀ i, (decodeRecordAux sh i rec).isOk = true by
    exact haux 0
  induction rec with
  | nil => intro i; rfl
  | cons it rest ih =>
      intro i
      have hok : (decodeRecItem sh i it).isOk = true := by
        match it with
        | .xTag v =>
            have := (key (sh i) v (hrec v (by simp))).1
            simpa [decodeRecItem] using this
        | .nTag q => rfl
        | .sTag (some t) => rfl
        | .sTag none => rfl
        | .mTag => rfl
        | .otherTag (some t) => rfl
        | .otherTag none => rfl
      have ih2 := ih (fun v hv => hrec v (by simp [hv])) (i + 1)
      obtain ⟨c, hc⟩ : ∃ c, decodeRecItem sh i it = .ok c := by
        cases h : decodeRecItem sh i it with
        | ok c => exact ⟨c, rfl⟩
        | error e => rw [h] at hok; cases hok
      obtain ⟨cs, hcs⟩ : ∃ cs, decodeRecordAux sh (i + 1) rest = .ok cs := by
        cases h : decodeRecordAux sh (i + 1) rest with
        | ok cs => exact ⟨cs, rfl⟩
        | error e => rw [h] at ih2; cases ih2
      simp only [decodeRecordAux, hc, hcs]
      rfl

/-- C5 witness: a nonnegative out-of-range index resolves to null and a
record of nonnegative indices decodes. -/
theorem resolveX_nonneg_safe_witness :
    resolveX (some [Cell.str "A"]) 5 = .ok Cell.null ∧
    (decodeRecord (fun _ => some [Cell.str "A"]) [RecItem.xTag 7]).isOk = true := by
  constructor
  · exact (resolveX_nonneg_safe.1 (some [Cell.str "A"]) 5 (by decide)).2.1 (by decide)
  · refine resolveX_nonneg_safe.2 _ [RecItem.xTag 7] ?_
    intro v hv
    simp only [List.mem_singleton, RecItem.xTag.injEq] at hv
    omega

/-! ### C2: missing definition or records entry -/

/-- C2 counterexample: a missing records entry raises KeyError while a
missing definition entry raises FileNotFoundError — extract_pivot_cache
raises rather than signalling a non-fatal outcome, and the two signals
are not identical. -/
theorem cache_absent_signals_differ :
    extract_pivot_cache wbDefNoRecs 1 = .error .keyError ∧
    extract_pivot_cache wbEmpty 1 = .error .fileNotFound ∧
    PyErr.keyError ≠ PyErr.fileNotFound :=
  ⟨rfl, rfl, by decide⟩

/-- C2 as amended: get_cache_fields reports a missing definition
non-fatally as None, while extract_pivot_cache raises FileNotFoundError
for a missing definition entry and KeyError for a missing records entry
— two distinct exceptions, absorbed only by the orchestrator. -/
theorem cache_absent_signals (wb : Workbook) (n : Nat) :
    (wb.defs n = none →
        get_cache_fields wb n = none ∧
        extract_pivot_cache wb n = .error .fileNotFound) ∧
    (∀ d, wb.defs n = some d → wb.recs n = none →
        extract_pivot_cache wb n = .error .keyError) := by
  constructor
  · intro h
    exact ⟨by simp [get_cache_fields, h], by simp [extract_pivot_cache, h]⟩
  · intro d hd hr
    simp [extract_pivot_cache, hd, hr]

/-- C2 witness: the two absence shapes at concrete containers. -/
theorem cache_absent_signals_witness :
    get_cache_fields wbEmpty 1 = none ∧
    extract_pivot_cache wbDefNoRecs 1 = .error .keyError :=
  ⟨((cache_absent_signals wbEmpty 1).1 rfl).1,
   (cache_absent_signals wbDefNoRecs 1).2 mainDef rfl rfl⟩

/-! ### C4: cache role detection -/

/-- C4 counterexample: when both cache definitions contain ClaimState,
cache 2 contains ClaimState yet is not returned as main — the rule is
not independent of the other cache. -/
theorem detect_roles_both_claimstate :
    fieldsHaveClaimState (get_cache_fields wbBothClaim 2) = true ∧
    (detect_cache_types wbBothClaim).1 = (1, 2) ∧
    (1, 2) ≠ ((2 : Nat), (1 : Nat)) := by
  refine ⟨by decide, by decide, by decide⟩

/-- C4 as amended: detection prefers cache 1 — if cache 1 contains
ClaimState it is main regardless of cache 2; otherwise if cache 2
contains ClaimState it is main; when neither does, the fallback (1, 2)
is returned with the diagnostic flag distinct from a confirmed
detection. -/
theorem detect_roles_rule (wb : Workbook) :
    (fieldsHaveClaimState (get_cache_fields wb 1) = true →
        detect_cache_types wb = ((1, 2), true)) ∧
    (fieldsHaveClaimState (get_cache_fields wb 1) = false →
     fieldsHaveClaimState (get_cache_fields wb 2) = true →
        detect_cache_types wb = ((2, 1), true)) ∧
    (fieldsHaveClaimState (get_cache_fields wb 1) = false →
     fieldsHaveClaimState (get_cache_fields wb 2) = false →
        detect_cache_types wb = ((1, 2), false)) := by
  refine ⟨fun h1 => by simp [detect_cache_types, h1],
          fun h1 h2 => by simp [detect_cache_types, h1, h2],
          fun h1 h2 => by simp [detect_cache_types, h1, h2]⟩

/-- C4 witness: a confirmed detection and an observable fallback. -/
theorem detect_roles_rule_witness :
    detect_cache_types wbFull = ((1, 2), true) ∧
    detect_cache_types wbDupCols = ((1, 2), false) :=
  ⟨(detect_roles_rule wbFull).1 (by decide),
   (detect_roles_rule wbDupCols).2.2 (by decide) (by decide)⟩

/-! ### C1: partial extraction -/

/-- C1 counterexample: in a container where only cache 1 is present its
extraction succeeds, yet the orchestrator emits nothing — a one sided
success produces no partial output. -/
theorem extract_partial_not_emitted :
    (extract_pivot_cache wbMainOnly 1).isOk = true ∧
    extract_ufdur wbMainOnly = .ok none :=
  ⟨rfl, rfl⟩

/-- C1 as amended: when both cache extractions succeed the orchestrator
hands the two normalized frames to pd.concat, which emits the main rows
followed by the outlier rows when the frames carry identical column
labels and raises otherwise; a table is emitted only when both sides
succeeded; and the failure of either side alone already makes the
function return None, with no output. -/
theorem extract_requires_both (wb : Workbook) :
    (∀ a b, extract_pivot_cache wb (detect_cache_types wb).1.1 = .ok a →
            extract_pivot_cache wb (detect_cache_types wb).1.2 = .ok b →
        extract_ufdur wb =
          (pdConcat (sidePipeline a false "MAIN") (sidePipeline b true "OUTLIERS")).map some) ∧
    (((extract_pivot_cache wb (detect_cache_types wb).1.1).isOk = false ∨
      (extract_pivot_cache wb (detect_cache_types wb).1.2).isOk = false) →
        extract_ufdur wb = .ok none) ∧
    (∀ t, extract_ufdur wb = .ok (some t) →
        (extract_pivot_cache wb (detect_cache_types wb).1.1).isOk = true ∧
        (extract_pivot_cache wb (detect_cache_types wb).1.2).isOk = true) ∧
    (∀ a b, extract_pivot_cache wb (detect_cache_types wb).1.1 = .ok a →
            extract_pivot_cache wb (detect_cache_types wb).1.2 = .ok b →
        (sidePipeline a false "MAIN").cols = (sidePipeline b true "OUTLIERS").cols →
        extract_ufdur wb = .ok (some ⟨(sidePipeline a false "MAIN").cols,
          (sidePipeline a false "MAIN").rows ++ (sidePipeline b true "OUTLIERS").rows⟩)) := by
  refine ⟨?_, ?_, ?_, ?_⟩
  · intro a b h1 h2
    simp only [extract_ufdur, h1, h2, Except.toOption, Option.map]
    cases hc : pdConcat (sidePipeline a false "MAIN") (sidePipeline b true "OUTLIERS") <;>
      simp [hc, Except.map]
  · intro h
    rcases h with h | h
    · cases hx : extract_pivot_cache wb (detect_cache_types wb).1.1 with
      | error e => simp [extract_ufdur, hx, Except.toOption]
      | ok a => rw [hx] at h; cases h
    · cases hy : extract_pivot_cache wb (detect_cache_types wb).1.2 with
      | error e =>
          cases hx : extract_pivot_cache wb (detect_cache_types wb).1.1 <;>
            simp [extract_ufdur, hx, hy, Except.toOption]
      | ok b => rw [hy] at h; cases h
  · intro t h
    cases hx : extract_pivot_cache wb (detect_cache_types wb).1.1 with
    | error e => simp [extract_ufdur, hx, Except.toOption] at h
    | ok a =>
        cases hy : extract_pivot_cache wb (detect_cache_types wb).1.2 with
        | error e => simp [extract_ufdur, hx, hy, Except.toOption] at h
        | ok b => exact ⟨rfl, rfl⟩
  · intro a b h1 h2 hcols
    have hcc : pdConcat (sidePipeline a false "MAIN") (sidePipeline b true "OUTLIERS") =
        .ok ⟨(sidePipeline a false "MAIN").cols,
             (sidePipeline a false "MAIN").rows ++ (sidePipeline b true "OUTLIERS").rows⟩ := by
      unfold pdConcat
      rw [if_pos hcols]
    simp only [extract_ufdur, h1, h2, Except.toOption, Option.map, hcc]

/-- The table wbFull produces. -/
def tFull : Df :=
  ⟨(sidePipeline dfMainFull false "MAIN").cols,
   (sidePipeline dfMainFull false "MAIN").rows ++ (sidePipeline dfOutFull true "OUTLIERS").rows⟩

/-- C1 witness: with both caches present the combined table is emitted. -/
theorem extract_requires_both_witness :
    extract_ufdur wbFull = .ok (some tFull) :=
  (extract_requires_both wbFull).2.2.2 dfMainFull dfOutFull rfl rfl rfl

/-! ### C6: quarter summary -/

/-- Coercion of the ThirtyDayEquiv column commutes with selecting one
quarter group, because the coercion leaves Qtr untouched. -/
lemma coerced_group (rows : List MRow) (q : Cell) :
    groupRows (coercedMaster rows) q = coercedMaster (groupRows rows q) := by
  unfold groupRows coercedMaster
  rw [List.filter_map]
  rfl

lemma lookup_replace (fs : Dir) (nm : String) (c : List MRow)
    (hmem : nm ∈ fs.map Prod.fst) :
    List.lookup nm (fs.map (fun p => if p.1 = nm then (nm, c) else p)) = some c := by
  induction fs with
  | nil => simp at hmem
  | cons p t ih =>
      rw [List.map_cons]
      by_cases hp : p.1 = nm
      · rw [if_pos hp]
        simp [List.lookup]
      · rw [if_neg hp]
        have hb : (nm == p.1) = false := beq_eq_false_iff_ne.mpr (fun h => hp h.symm)
        have hmem2 : nm ∈ t.map Prod.fst := by
          rw [List.map_cons] at hmem
          rcases List.mem_cons.mp hmem with h | h
          · exact absurd h.symm hp
          · exact h
        simp only [List.lookup, hb]
        exact ih hmem2

lemma lookup_append_new (fs : Dir) (nm : String) (c : List MRow)
    (hmem : nm ∉ fs.map Prod.fst) :
    List.lookup nm (fs ++ [(nm, c)]) = some c := by
  induction fs with
  | nil => simp [List.lookup]
  | cons p t ih =>
      have hp : ¬p.1 = nm := by
        intro h
        exact hmem (by simp [h])
      have hb : (nm == p.1) = false := beq_eq_false_iff_ne.mpr (fun h => hp h.symm)
      have hmem2 : nm ∉ t.map Prod.fst := fun h => hmem (by simp [h])
      simp only [List.cons_append, List.lookup, hb]
      exact ih hmem2

/-- Looking up the written name finds the written content. -/
lemma lookup_writeFile (fs : Dir) (nm : String) (c : List MRow) :
    List.lookup nm (writeFile fs nm c) = some c := by
  unfold writeFile
  split
  · exact lookup_replace fs nm c (by assumption)
  · exact lookup_append_new fs nm c (by assumption)

/-- C6 counterexample: a one row group whose ProductName is missing is
reported with count 0, not with the count of its rows, which is 1 — the
summary counts non null ProductName entries, not rows. -/
theorem quarter_summary_count_null :
    summaryCount [⟨Cell.str "FY24Q1", Cell.null, Cell.num 10⟩] (Cell.str "FY24Q1") = 0 ∧
    (groupRows [⟨Cell.str "FY24Q1", Cell.null, Cell.num 10⟩] (Cell.str "FY24Q1")).length = 1 :=
  ⟨rfl, rfl⟩

/-- C6 as amended: per quarter group the summary reports the sum of the
numeric coercion of ThirtyDayEquiv, in which every non numeric or blank
value contributes zero, and the count of rows whose ProductName entry is
non null; the master file content written by the merger is the uncoerced
merged row data, preserved verbatim (the write of line 59 precedes the
coercion of line 72), while the frame the function returns carries the
coerced ThirtyDayEquiv column. -/
theorem quarter_summary_rule :
    (∀ rows q, summarySum rows q =
        ((rows.filter (fun r => r.qtr == q)).map
          (fun r => (coerceNum r.thirtyDayEquiv).getD 0)).sum) ∧
    (∀ rows q, summaryCount rows q =
        ((rows.filter (fun r => r.qtr == q)).filter
          (fun r => r.productName != Cell.null)).length) ∧
    (∀ fs outName, (discoverNames fs).isEmpty = false →
        (combine_quarters fs outName).1 = some (coercedMaster (mergedRows fs)) ∧
        List.lookup outName (combine_quarters fs outName).2 = some (mergedRows fs)) := by
  refine ⟨?_, ?_, ?_⟩
  · intro rows q
    unfold summarySum
    rw [coerced_group]
    unfold coercedMaster
    rw [List.map_map]
    have hfun : ((fun r : MRow => match r.thirtyDayEquiv with | .num x => x | _ => 0) ∘
        (fun r : MRow => { r with thirtyDayEquiv := coerceCell r.thirtyDayEquiv })) =
        (fun r : MRow => (coerceNum r.thirtyDayEquiv).getD 0) := by
      funext r
      show (match coerceCell r.thirtyDayEquiv with | .num x => x | _ => (0 : ℚ)) = _
      unfold coerceCell
      cases coerceNum r.thirtyDayEquiv <;> rfl
    rw [hfun]
    rfl
  · intro rows q
    unfold summaryCount
    rw [coerced_group]
    unfold coercedMaster
    rw [List.filter_map, List.length_map]
    rfl
  · intro fs outName h
    constructor
    · simp [combine_quarters, h]
    · simp [combine_quarters, h, lookup_writeFile]

/-- The three row scenario of the specification, with ProductName
present on every row. -/
def scenRows : List MRow :=
  [⟨.str "FY24Q1", .str "x", .num 10⟩, ⟨.str "FY24Q1", .str "y", .str "bad"⟩,
   ⟨.str "FY24Q2", .str "z", .num 5⟩]

/-- A directory of two period files, listed out of lexical order. -/
def dirTwo : Dir :=
  [("FY24Q2_combined.csv", [⟨.str "FY24Q2", .str "x", .num 5⟩]),
   ("FY24Q1_combined.csv", [⟨.str "FY24Q1", .str "y", .num 10⟩])]

/-- C6 witness: the scenario rows give sum 10 and count 2 for FY24Q1,
and a concrete merge returns the coerced merged rows. -/
theorem quarter_summary_rule_witness :
    summarySum scenRows (Cell.str "FY24Q1") = 10 ∧
    summaryCount scenRows (Cell.str "FY24Q1") = 2 ∧
    (combine_quarters dirTwo "UFDUR_Master.csv").1 =
      some (coercedMaster (mergedRows dirTwo)) := by
  refine ⟨?_, ?_, ?_⟩
  · rw [quarter_summary_rule.1 scenRows (Cell.str "FY24Q1")]
    have h1 : (scenRows.filter (fun r => r.qtr == Cell.str "FY24Q1")).map
        (fun r => (coerceNum r.thirtyDayEquiv).getD 0) = [10, 0] := rfl
    rw [h1]
    simp
  · rw [quarter_summary_rule.2.1 scenRows (Cell.str "FY24Q1")]
    decide
  · exact (quarter_summary_rule.2.2 dirTwo "UFDUR_Master.csv" (by decide)).1

/-! ### Column shape lemmas -/

lemma setCol_cols (df : Df) (c : String) (v : Cell) :
    (df.setCol c v).cols = if c ∈ df.cols then df.cols else df.cols ++ [c] := by
  by_cases h : c ∈ df.cols
  · simp [Df.setCol, h]
  · simp [Df.setCol, h]

lemma mem_setCol_cols (df : Df) (c : String) (v : Cell) (x : String) :
    x ∈ (df.setCol c v).cols ↔ x ∈ df.cols ∨ x = c := by
  rw [setCol_cols]
  by_cases h : c ∈ df.cols
  · rw [if_pos h]
    constructor
    · exact Or.inl
    · rintro (hx | rfl)
      · exact hx
      · exact h
  · rw [if_neg h]
    simp [List.mem_append]

lemma nodup_setCol_cols (df : Df) (c : String) (v : Cell) (h : df.cols.Nodup) :
    (df.setCol c v).cols.Nodup := by
  rw [setCol_cols]
  by_cases hc : c ∈ df.cols
  · rw [if_pos hc]
    exact h
  · rw [if_neg hc]
    simp [List.nodup_append, h, hc]

lemma mem_addIfMissing_cols (df : Df) (c : String) (v : Cell) (x : String) :
    x ∈ (addIfMissing df c v).cols ↔ x ∈ df.cols ∨ x = c := by
  unfold addIfMissing
  simp only [Df.hasCol, decide_eq_true_eq]
  by_cases hc : c ∈ df.cols
  · rw [if_pos hc]
    constructor
    · exact Or.inl
    · rintro (hx | rfl)
      · exact hx
      · exact hc
  · rw [if_neg hc]
    exact mem_setCol_cols df c v x

lemma nodup_addIfMissing_cols (df : Df) (c : String) (v : Cell) (h : df.cols.Nodup) :
    (addIfMissing df c v).cols.Nodup := by
  unfold addIfMissing
  simp only [Df.hasCol, decide_eq_true_eq]
  by_cases hc : c ∈ df.cols
  · rw [if_pos hc]
    exact h
  · rw [if_neg hc]
    exact nodup_setCol_cols df c v h

lemma foldl_addIfMissing (cs : List String) (v : Cell) :
    ∀ df : Df, df.cols.Nodup →
      (cs.foldl (fun d c => addIfMissing d c v) df).cols.Nodup ∧
      ∀ x, x ∈ (cs.foldl (fun d c => addIfMissing d c v) df).cols ↔
        (x ∈ df.cols ∨ x ∈ cs) := by
  induction cs with
  | nil =>
      intro df h
      refine ⟨h, fun x => ?_⟩
      simp
  | cons c rest ih =>
      intro df h
      rw [List.foldl_cons]
      obtain ⟨h1, h2⟩ := ih (addIfMissing df c v) (nodup_addIfMissing_cols df c v h)
      refine ⟨h1, fun x => ?_⟩
      rw [h2 x, mem_addIfMissing_cols]
      simp only [List.mem_cons]
      tauto

lemma standardize_cols (df : Df) (o : Bool) (h : (df.cols.map renameCol).Nodup) :
    (standardize_columns df o).cols.Nodup ∧
    ∀ x, x ∈ (standardize_columns df o).cols ↔
      (x ∈ df.cols.map renameCol ∨ x = "ClaimState" ∨ x = "MTF" ∨
       x = "MTFbranchofservice") := by
  unfold standardize_columns
  have hr : (df.rename).cols = df.cols.map renameCol := rfl
  have h0 : (df.rename).cols.Nodup := by rw [hr]; exact h
  have h1 := nodup_addIfMissing_cols df.rename "ClaimState" (.str "AGGREGATED") h0
  have h2 := nodup_addIfMissing_cols _ "MTF" (.str "") h1
  have h3 := nodup_addIfMissing_cols _ "MTFbranchofservice" (.str "") h2
  refine ⟨h3, fun x => ?_⟩
  rw [mem_addIfMissing_cols, mem_addIfMissing_cols, mem_addIfMissing_cols, hr]
  tauto

lemma colIdxsAux_nil_of_not_mem (nm : String) (cs : List String) :
    nm ∉ cs → ∀ base, colIdxsAux nm cs base = [] := by
  induction cs with
  | nil => intro _ _; rfl
  | cons c rest ih =>
      intro h base
      have hc : ¬c = nm := fun e => h (by simp [e])
      simp only [colIdxsAux, if_neg hc]
      exact ih (fun hm => h (by simp [hm])) (base + 1)

lemma colIdxsAux_sing (nm : String) (cs : List String) :
    cs.Nodup → nm ∈ cs → ∀ base, ∃ j, colIdxsAux nm cs base = [j] := by
  induction cs with
  | nil => intro _ hm; simp at hm
  | cons c rest ih =>
      intro hnd hm base
      by_cases hc : c = nm
      · subst hc
        have hnin : c ∉ rest := (List.nodup_cons.mp hnd).1
        refine ⟨base, ?_⟩
        simp only [colIdxsAux]
        rw [if_pos trivial, colIdxsAux_nil_of_not_mem c rest hnin (base + 1)]
      · have hm2 : nm ∈ rest := by
          rcases List.mem_cons.mp hm with e | e
          · exact absurd e.symm hc
          · exact e
        obtain ⟨j, hj⟩ := ih (List.nodup_cons.mp hnd).2 hm2 (base + 1)
        refine ⟨j, ?_⟩
        simp only [colIdxsAux, if_neg hc]
        exact hj

lemma colIdxsAux_mem_spec (nm : String) (cs : List String) :
    ∀ base j, j ∈ colIdxsAux nm cs base →
      base ≤ j ∧ j - base < cs.length ∧ cs.getD (j - base) "" = nm := by
  induction cs with
  | nil => intro base j h; simp [colIdxsAux] at h
  | cons c rest ih =>
      intro base j h
      by_cases hc : c = nm
      · simp only [colIdxsAux, if_pos hc] at h
        rcases List.mem_cons.mp h with rfl | h2
        · refine ⟨Nat.le_refl _, by simp, ?_⟩
          simp [Nat.sub_self, hc]
        · obtain ⟨hb, hl, hget⟩ := ih (base + 1) j h2
          refine ⟨by omega, by simp only [List.length_cons]; omega, ?_⟩
          have he : j - base = (j - (base + 1)) + 1 := by omega
          rw [he, List.getD_cons_succ]
          exact hget
      · simp only [colIdxsAux, if_neg hc] at h
        obtain ⟨hb, hl, hget⟩ := ih (base + 1) j h
        refine ⟨by omega, by simp only [List.length_cons]; omega, ?_⟩
        have he : j - base = (j - (base + 1)) + 1 := by omega
        rw [he, List.getD_cons_succ]
        exact hget

lemma colIdxs_sing_of_nodup (df : Df) (nm : String)
    (hnd : df.cols.Nodup) (hm : nm ∈ df.cols) :
    ∃ j, df.colIdxs nm = [j] :=
  colIdxsAux_sing nm df.cols hnd hm 0

lemma flatMap_const_sing (df : Df) (names : List String)
    (h : ∀ nm ∈ names, ∃ j, df.colIdxs nm = [j]) :
    names.flatMap (fun nm => (df.colIdxs nm).map (fun _ => nm)) = names := by
  induction names with
  | nil => rfl
  | cons nm rest ih =>
      rw [List.flatMap_cons]
      obtain ⟨j, hj⟩ := h nm (List.mem_cons_self _ _)
      rw [hj, ih (fun x hx => h x (List.mem_cons_of_mem _ hx))]
      rfl

lemma select_cols_of_sing (df : Df) (names : List String)
    (h : ∀ nm ∈ names, ∃ j, df.colIdxs nm = [j]) :
    (df.select names).cols = names :=
  flatMap_const_sing df names h

lemma flatMap_len (names : List String) (f : String → List Nat) (g : Nat → Cell) :
    (names.flatMap (fun nm => (f nm).map g)).length =
    (names.flatMap (fun nm => (f nm).map (fun _ => nm))).length := by
  induction names with
  | nil => rfl
  | cons nm rest ih => simp [List.flatMap_cons, ih]

lemma select_rect (df : Df) (names : List String) :
    ∀ r ∈ (df.select names).rows, r.length = (df.select names).cols.length := by
  intro r hr
  unfold Df.select at hr ⊢
  simp only [List.mem_map] at hr
  obtain ⟨r0, _, rfl⟩ := hr
  exact flatMap_len names df.colIdxs (fun i => r0.getD i Cell.null)

/-- After standardize, Source tagging and back-fill, the column list is
duplicate free and contains every canonical column, provided the renamed
input columns were duplicate free. -/
lemma pipeline_cols_state (df : Df) (o : Bool) (tag : String)
    (hnd : (df.cols.map renameCol).Nodup) :
    (backfill ((standardize_columns df o).setCol "Source" (.str tag))).cols.Nodup ∧
    ∀ c ∈ all_columns,
      c ∈ (backfill ((standardize_columns df o).setCol "Source" (.str tag))).cols := by
  obtain ⟨hstdn, _⟩ := standardize_cols df o hnd
  have hsrc := nodup_setCol_cols (standardize_columns df o) "Source" (.str tag) hstdn
  obtain ⟨hbn, hbm⟩ := foldl_addIfMissing all_columns (.str "")
    ((standardize_columns df o).setCol "Source" (.str tag)) hsrc
  exact ⟨hbn, fun c hc => (hbm c).mpr (Or.inr hc)⟩

/-- Under the no-duplicate hypothesis the per-cache pipeline emits
exactly the canonical columns, in canonical order. -/
lemma sidePipeline_cols (df : Df) (o : Bool) (tag : String)
    (hnd : (df.cols.map renameCol).Nodup) :
    (sidePipeline df o tag).cols = all_columns := by
  obtain ⟨hn, hm⟩ := pipeline_cols_state df o tag hnd
  exact select_cols_of_sing _ all_columns
    (fun nm hnm => colIdxs_sing_of_nodup _ nm hn (hm nm hnm))

/-! ### C3: canonical column shape -/

/-- A successful extraction carries the definition field names as its
column labels. -/
lemma extract_cols (wb : Workbook) (n : Nat) (df : Df)
    (h : extract_pivot_cache wb n = .ok df) :
    ∃ d, wb.defs n = some d ∧ df.cols = d.map CacheField.name := by
  unfold extract_pivot_cache at h
  split at h
  · cases h
  next d hd =>
    split at h
    · cases h
    next recs hr =>
      split at h
      · cases h
      next rows hm =>
        refine ⟨d, hd, ?_⟩
        cases h
        rfl

/-- A cache definition carrying both the legacy orphan quantity name and
its canonical replacement. -/
def dupDef : CacheDef := [⟨"TotalOrphanQTY", none⟩, ⟨"TotalQty", none⟩]

/-- A container where BOTH caches carry the colliding layout, so the two
normalized frames have identical (duplicated) column labels and
pd.concat aligns them without raising. -/
def wbDupBoth : Workbook :=
  ⟨fun n => if n = 1 then some dupDef else if n = 2 then some dupDef else none,
   fun n => if n = 1 then some [[RecItem.nTag 1, RecItem.nTag 2]]
            else if n = 2 then some [[RecItem.nTag 3, RecItem.nTag 4]] else none⟩

set_option maxRecDepth 8000 in
/-- C3 counterexample: when both caches carry TotalOrphanQTY alongside
TotalQty, the rename makes the labels collide, pandas label selection
keeps every match, the two frames carry the same fifteen labels, and the
orchestrator emits a fifteen column table with TotalQty twice. -/
theorem canonical_columns_duplicate :
    (extract_ufdur wbDupBoth).map (fun t => t.map Df.cols) =
      .ok (some ["Qtr", "ClaimState", "DOD_UF_CLASS", "DSF", "ProductName",
            "SpecialtyDrugFlag", "point_of_service", "MTF", "MTFbranchofservice",
            "TotalQty", "TotalQty", "TotalDS", "TotalRxCnt", "ThirtyDayEquiv", "Source"]) ∧
    ["Qtr", "ClaimState", "DOD_UF_CLASS", "DSF", "ProductName",
     "SpecialtyDrugFlag", "point_of_service", "MTF", "MTFbranchofservice",
     "TotalQty", "TotalQty", "TotalDS", "TotalRxCnt", "ThirtyDayEquiv", "Source"] ≠
      all_columns :=
  ⟨rfl, by decide⟩

/-- C3 as amended: provided no cache carries both a legacy orphan column
name and its canonical replacement (its renamed labels stay duplicate
free), every table emitted by the orchestrator has exactly the fourteen
canonical columns in canonical order, and every row has exactly fourteen
cells, for every reordered, superset or subset source layout.  When the
collision occurs in both caches the emitted table instead has fifteen
columns, and when it occurs in only one the concatenation raises and
nothing is emitted. -/
theorem canonical_columns_shape (wb : Workbook) (t : Df)
    (hout : extract_ufdur wb = .ok (some t))
    (hnd : ∀ n d, wb.defs n = some d → ((d.map CacheField.name).map renameCol).Nodup) :
    t.cols = all_columns ∧ ∀ r ∈ t.rows, r.length = all_columns.length := by
  simp only [extract_ufdur] at hout
  cases h1 : extract_pivot_cache wb (detect_cache_types wb).1.1 with
  | error e => rw [h1] at hout; simp [Except.toOption] at hout
  | ok a =>
      cases h2 : extract_pivot_cache wb (detect_cache_types wb).1.2 with
      | error e => rw [h1, h2] at hout; simp [Except.toOption] at hout
      | ok b =>
          rw [h1, h2] at hout
          simp only [Except.toOption, Option.map] at hout
          obtain ⟨d1, hd1, hc1⟩ := extract_cols wb _ a h1
          obtain ⟨d2, hd2, hc2⟩ := extract_cols wb _ b h2
          have hnd1 : (a.cols.map renameCol).Nodup := by
            rw [hc1]; exact hnd _ d1 hd1
          have hnd2 : (b.cols.map renameCol).Nodup := by
            rw [hc2]; exact hnd _ d2 hd2
          have hA := sidePipeline_cols a false "MAIN" hnd1
          have hB := sidePipeline_cols b true "OUTLIERS" hnd2
          have hcols : (sidePipeline a false "MAIN").cols =
              (sidePipeline b true "OUTLIERS").cols := by
            rw [hA, hB]
          have hcc : pdConcat (sidePipeline a false "MAIN") (sidePipeline b true "OUTLIERS") =
              .ok ⟨(sidePipeline a false "MAIN").cols,
                   (sidePipeline a false "MAIN").rows ++ (sidePipeline b true "OUTLIERS").rows⟩ := by
            unfold pdConcat
            rw [if_pos hcols]
          rw [hcc] at hout
          simp only [Except.ok.injEq, Option.some.injEq] at hout
          subst hout
          constructor
          · exact hA
          · intro r hr
            rcases List.mem_append.mp hr with h | h
            · calc r.length = (sidePipeline a false "MAIN").cols.length :=
                    select_rect _ all_columns r h
                _ = all_columns.length := by rw [hA]
            · calc r.length = (sidePipeline b true "OUTLIERS").cols.length :=
                    select_rect _ all_columns r h
                _ = all_columns.length := by rw [hB]

set_option maxRecDepth 8000 in
/-- C3 witness: the canonical shape of the table extracted from a
concrete two cache container. -/
theorem canonical_columns_shape_witness : tFull.cols = all_columns :=
  (canonical_columns_shape wbFull tFull rfl (by
    intro n d h
    simp only [wbFull] at h
    split at h
    · cases h
      decide
    · split at h
      · cases h
        decide
      · cases h)).1

/-! ### C9: normalization is a no-op on canonical input -/

lemma getD_range_self {α : Type} (l : List α) (d : α) :
    (List.range l.length).map (fun i => l.getD i d) = l := by
  induction l with
  | nil => rfl
  | cons a t ih =>
      rw [List.length_cons, List.range_succ_eq_map, List.map_cons, List.map_map]
      congr 1

lemma map_eq_self_of_mem {α : Type} (l : List α) (f : α → α)
    (h : ∀ x ∈ l, f x = x) : l.map f = l := by
  induction l with
  | nil => rfl
  | cons a t ih =>
      rw [List.map_cons, h a (List.mem_cons_self a t),
        ih (fun x hx => h x (List.mem_cons_of_mem a hx))]

/-- Adding a column that is already present changes nothing. -/
lemma addIfMissing_noop (df : Df) (c : String) (v : Cell) (h : c ∈ df.cols) :
    addIfMissing df c v = df := by
  unfold addIfMissing
  simp [Df.hasCol, h]

/-- Back-filling columns that are all present changes nothing. -/
lemma foldl_addIfMissing_noop (cs : List String) (v : Cell) :
    ∀ df : Df, (∀ c ∈ cs, c ∈ df.cols) →
      cs.foldl (fun d c => addIfMissing d c v) df = df := by
  induction cs with
  | nil => intro df _; rfl
  | cons c rest ih =>
      intro df h
      rw [List.foldl_cons, addIfMissing_noop df c v (h c (List.mem_cons_self c rest))]
      exact ih df (fun x hx => h x (List.mem_cons_of_mem c hx))

set_option maxRecDepth 8000 in
set_option maxHeartbeats 1000000 in
/-- C9: a frame that already carries exactly the canonical columns in
canonical order passes through rename, every back-fill and the canonical
projection unchanged — normalization is a no-op on canonical input. -/
theorem normalize_canonical_noop (df : Df) (o : Bool)
    (hc : df.cols = all_columns)
    (hr : ∀ r ∈ df.rows, r.length = all_columns.length) :
    (backfill (standardize_columns df o)).select all_columns = df := by
  obtain ⟨cols, rows⟩ := df
  simp only at hc
  subst hc
  have h1 : standardize_columns (⟨all_columns, rows⟩ : Df) o = ⟨all_columns, rows⟩ := rfl
  have h2 : backfill (⟨all_columns, rows⟩ : Df) = ⟨all_columns, rows⟩ :=
    foldl_addIfMissing_noop all_columns (.str "") ⟨all_columns, rows⟩ (fun c hc2 => hc2)
  have h3 : (Df.select ⟨all_columns, rows⟩ all_columns) =
      ⟨all_columns, rows.map
        (fun r => (List.range all_columns.length).map (fun i => r.getD i Cell.null))⟩ := rfl
  rw [h1, h2, h3]
  refine congrArg (Df.mk all_columns) ?_
  refine map_eq_self_of_mem rows _ (fun r hrr => ?_)
  have hlen := hr r hrr
  rw [← hlen]
  exact getD_range_self r Cell.null

/-- A frame that is already canonical. -/
def dfCanon : Df :=
  ⟨all_columns,
   [[.str "q", .str "AL", .str "", .str "", .str "p", .str "", .str "", .str "",
     .str "", .num 1, .num 2, .num 3, .num 4, .str "MAIN"]]⟩

/-- C9 witness: normalization returns a concrete canonical frame
unchanged. -/
theorem normalize_canonical_noop_witness :
    (backfill (standardize_columns dfCanon false)).select all_columns = dfCanon :=
  normalize_canonical_noop dfCanon false rfl (by decide)

/-! ### C10: the Source column is overwritten per role -/

/-- Rectangularity: every row has one cell per column. -/
def rectP (df : Df) : Prop := ∀ r ∈ df.rows, r.length = df.cols.length

/-- Every cell sitting under a column labelled Source holds the tag. -/
def tagCellsP (df : Df) (tag : String) : Prop :=
  ∀ r ∈ df.rows, ∀ p ∈ df.cols.zip r, p.1 = "Source" → p.2 = Cell.str tag

lemma rectP_rename (df : Df) (h : rectP df) : rectP df.rename := by
  intro r hr
  have := h r hr
  simpa [Df.rename] using this

lemma rectP_setCol (df : Df) (c : String) (v : Cell) (h : rectP df) :
    rectP (df.setCol c v) := by
  unfold Df.setCol
  split
  · intro r hr
    obtain ⟨r0, hr0, rfl⟩ := List.mem_map.mp hr
    simp [List.length_zip, h r0 hr0]
  · intro r hr
    obtain ⟨r0, hr0, rfl⟩ := List.mem_map.mp hr
    simp [h r0 hr0]

lemma rectP_addIfMissing (df : Df) (c : String) (v : Cell) (h : rectP df) :
    rectP (addIfMissing df c v) := by
  unfold addIfMissing
  split
  · exact h
  · exact rectP_setCol df c v h

lemma rectP_standardize (df : Df) (o : Bool) (h : rectP df) :
    rectP (standardize_columns df o) :=
  rectP_addIfMissing _ _ _
    (rectP_addIfMissing _ _ _ (rectP_addIfMissing _ _ _ (rectP_rename df h)))

lemma rectP_backfill_aux (cs : List String) (v : Cell) :
    ∀ df : Df, rectP df → rectP (cs.foldl (fun d c => addIfMissing d c v) df) := by
  induction cs with
  | nil => intro df h; exact h
  | cons c rest ih =>
      intro df h
      rw [List.foldl_cons]
      exact ih _ (rectP_addIfMissing df c v h)

lemma foldl_addIfMissing_mem_mono (cs : List String) (v : Cell) :
    ∀ (df : Df) (x : String), x ∈ df.cols →
      x ∈ (cs.foldl (fun d c => addIfMissing d c v) df).cols := by
  induction cs with
  | nil => intro df x h; exact h
  | cons c rest ih =>
      intro df x h
      rw [List.foldl_cons]
      exact ih _ x ((mem_addIfMissing_cols df c v x).mpr (Or.inl h))

lemma overwrite_tag_mem (cols : List String) (v : Cell) :
    ∀ (r : List Cell) (p : String × Cell),
      p ∈ cols.zip ((cols.zip r).map (fun q => if q.1 = "Source" then v else q.2)) →
      p.1 = "Source" → p.2 = v := by
  induction cols with
  | nil => intro r p hp; simp at hp
  | cons c cs ih =>
      intro r p hp
      cases r with
      | nil => simp at hp
      | cons a t =>
          rw [List.zip_cons_cons, List.map_cons, List.zip_cons_cons] at hp
          rcases List.mem_cons.mp hp with hpe | hp2
          · subst hpe
            intro hsrc
            show (if c = "Source" then v else a) = v
            rw [if_pos hsrc]
          · exact ih t p hp2

lemma append_tag_mem (cols : List String) (v : Cell) (hnot : "Source" ∉ cols) :
    ∀ (r : List Cell), r.length = cols.length →
      ∀ p ∈ (cols ++ ["Source"]).zip (r ++ [v]), p.1 = "Source" → p.2 = v := by
  intro r hlen p hp hsrc
  rw [List.zip_append hlen.symm] at hp
  rcases List.mem_append.mp hp with hL | hR
  · exfalso
    have hmem := (List.of_mem_zip hL).1
    rw [hsrc] at hmem
    exact hnot hmem
  · have hpe : p = ("Source", v) := by simpa using hR
    rw [hpe]

lemma tagP_setCol_source (df : Df) (tag : String) (hrect : rectP df) :
    tagCellsP (df.setCol "Source" (.str tag)) tag := by
  unfold Df.setCol
  split
  · intro r hr
    obtain ⟨r0, _, rfl⟩ := List.mem_map.mp hr
    intro p hp hpsrc
    exact overwrite_tag_mem df.cols (Cell.str tag) r0 p hp hpsrc
  next hmem =>
    intro r hr
    obtain ⟨r0, hr0, rfl⟩ := List.mem_map.mp hr
    intro p hp hpsrc
    exact append_tag_mem df.cols (Cell.str tag) hmem r0 (hrect r0 hr0) p hp hpsrc

lemma tagP_addIfMissing (df : Df) (c : String) (v : Cell) (tag : String)
    (hrect : rectP df) (hsrc : "Source" ∈ df.cols) (htag : tagCellsP df tag) :
    tagCellsP (addIfMissing df c v) tag := by
  unfold addIfMissing
  split
  · exact htag
  next hc =>
    simp only [Df.hasCol, decide_eq_true_eq] at hc
    have hcs : ¬c = "Source" := fun e => hc (e ▸ hsrc)
    unfold Df.setCol
    rw [if_neg hc]
    intro r hr
    obtain ⟨r0, hr0, rfl⟩ := List.mem_map.mp hr
    intro p hp hpsrc
    rw [List.zip_append (hrect r0 hr0).symm] at hp
    rcases List.mem_append.mp hp with hL | hR
    · exact htag r0 hr0 p hL hpsrc
    · exfalso
      have hpe : p = (c, v) := by simpa using hR
      rw [hpe] at hpsrc
      exact hcs hpsrc

lemma tagP_backfill_aux (cs : List String) (v : Cell) (tag : String) :
    ∀ df : Df, rectP df → "Source" ∈ df.cols → tagCellsP df tag →
      tagCellsP (cs.foldl (fun d c => addIfMissing d c v) df) tag := by
  induction cs with
  | nil => intro df _ _ h; exact h
  | cons c rest ih =>
      intro df hrect hsrc htag
      rw [List.foldl_cons]
      exact ih _ (rectP_addIfMissing df c v hrect)
        ((mem_addIfMissing_cols df c v "Source").mpr (Or.inl hsrc))
        (tagP_addIfMissing df c v tag hrect hsrc htag)

lemma zip_flatMap_select (names : List String) (f : String → List Nat) (g : Nat → Cell) :
    (names.flatMap (fun nm => (f nm).map (fun _ => nm))).zip
      (names.flatMap (fun nm => (f nm).map g)) =
    names.flatMap (fun nm => (f nm).map (fun i => (nm, g i))) := by
  induction names with
  | nil => rfl
  | cons nm rest ih =>
      simp only [List.flatMap_cons]
      rw [List.zip_append (by simp), ih]
      congr 1
      rw [List.zip_map']

lemma getD_pair_mem_zip {α β : Type} (d1 : α) (d2 : β) :
    ∀ (l1 : List α) (l2 : List β) (i : Nat), i < l1.length → i < l2.length →
      (l1.getD i d1, l2.getD i d2) ∈ l1.zip l2 := by
  intro l1
  induction l1 with
  | nil => intro l2 i h1 h2; simp at h1
  | cons a t ih =>
      intro l2 i h1 h2
      cases l2 with
      | nil => simp at h2
      | cons b s =>
          cases i with
          | zero => simp [List.zip_cons_cons]
          | succ n =>
              rw [List.getD_cons_succ, List.getD_cons_succ, List.zip_cons_cons]
              exact List.mem_cons_of_mem _
                (ih s n (by simpa using h1) (by simpa using h2))

lemma tagP_select (df : Df) (names : List String) (tag : String)
    (hrect : rectP df) (htag : tagCellsP df tag) :
    tagCellsP (df.select names) tag := by
  intro r hr p hp hpsrc
  simp only [Df.select] at hr hp
  obtain ⟨r0, hr0, rfl⟩ := List.mem_map.mp hr
  rw [zip_flatMap_select names df.colIdxs (fun i => r0.getD i Cell.null)] at hp
  obtain ⟨nm, _, hpin⟩ := List.mem_flatMap.mp hp
  obtain ⟨i, hi, rfl⟩ := List.mem_map.mp hpin
  have hnm2 : nm = "Source" := hpsrc
  subst hnm2
  obtain ⟨_, hl, hget⟩ := colIdxsAux_mem_spec "Source" df.cols 0 i hi
  rw [Nat.sub_zero] at hl hget
  have hlr : i < r0.length := by rw [hrect r0 hr0]; exact hl
  have hzip := getD_pair_mem_zip "" Cell.null df.cols r0 i hl hlr
  rw [hget] at hzip
  exact htag r0 hr0 ("Source", r0.getD i Cell.null) hzip rfl

lemma colIdxsAux_ne_nil (nm : String) (cs : List String) :
    nm ∈ cs → ∀ base, colIdxsAux nm cs base ≠ [] := by
  induction cs with
  | nil => intro h; simp at h
  | cons c rest ih =>
      intro h base
      by_cases hc : c = nm
      · simp only [colIdxsAux]
        rw [if_pos hc]
        simp
      · simp only [colIdxsAux]
        rw [if_neg hc]
        have h2 : nm ∈ rest := by
          rcases List.mem_cons.mp h with e | e
          · exact absurd e.symm hc
          · exact e
        exact ih h2 (base + 1)

lemma mem_select_cols_of_mem (df : Df) (names : List String) (nm : String)
    (hn : nm ∈ names) (hm : nm ∈ df.cols) : nm ∈ (df.select names).cols := by
  have hne := colIdxsAux_ne_nil nm df.cols hm 0
  obtain ⟨j, hj⟩ := List.exists_mem_of_ne_nil _ hne
  exact List.mem_flatMap.mpr ⟨nm, hn, List.mem_map.mpr ⟨j, hj, rfl⟩⟩

/-- C10: after per-cache orchestration the Source column is present in
the emitted table and every cell under a column labelled Source holds
exactly the role tag literal — any Source values present in the raw cache
data are overwritten by the scalar assignment and never pass through. -/
theorem source_tag_overrides (df : Df) (o : Bool) (tag : String)
    (hrect : ∀ r ∈ df.rows, r.length = df.cols.length) :
    "Source" ∈ (sidePipeline df o tag).cols ∧
    ∀ row ∈ (sidePipeline df o tag).rows,
      ∀ p ∈ (sidePipeline df o tag).cols.zip row,
        p.1 = "Source" → p.2 = Cell.str tag := by
  have hrect0 : rectP df := hrect
  have h1 : rectP (standardize_columns df o) := rectP_standardize df o hrect0
  have h2 : rectP ((standardize_columns df o).setCol "Source" (.str tag)) :=
    rectP_setCol _ _ _ h1
  have htag2 : tagCellsP ((standardize_columns df o).setCol "Source" (.str tag)) tag :=
    tagP_setCol_source _ tag h1
  have hsrc2 : "Source" ∈ ((standardize_columns df o).setCol "Source" (.str tag)).cols :=
    (mem_setCol_cols _ _ _ _).mpr (Or.inr rfl)
  have h3 : rectP (backfill ((standardize_columns df o).setCol "Source" (.str tag))) :=
    rectP_backfill_aux all_columns (.str "") _ h2
  have htag3 : tagCellsP (backfill ((standardize_columns df o).setCol "Source" (.str tag))) tag :=
    tagP_backfill_aux all_columns (.str "") tag _ h2 hsrc2 htag2
  have hsrc3 : "Source" ∈ (backfill ((standardize_columns df o).setCol "Source" (.str tag))).cols :=
    foldl_addIfMissing_mem_mono all_columns (.str "") _ "Source" hsrc2
  constructor
  · exact mem_select_cols_of_mem _ all_columns "Source" (by decide) hsrc3
  · exact tagP_select _ all_columns tag h3 htag3

/-- A frame whose raw data already carries a Source column with junk. -/
def dfJunkSource : Df := ⟨["Source", "ProductName"], [[.str "JUNK", .str "X"]]⟩

/-- C10 witness: the pipeline output of a frame carrying raw Source data
still exposes a Source column (whose cells the theorem forces to the
role tag). -/
theorem source_tag_overrides_witness :
    "Source" ∈ (sidePipeline dfJunkSource false "MAIN").cols :=
  (source_tag_overrides dfJunkSource false "MAIN" (by decide)).1

/-! ### C8: deterministic, idempotent merging -/

end Ufdur
